import Mathlib

/-!
Shallow embedding of the `transfer-chinese` repository (two JavaScript
utilities over gettext `.po` catalogs):

* `src/index.js` — the Fill Workflow: walks catalog entries, translates the
  untranslated ones through a provider with a cache and retry/backoff, and
  writes the translation back into the entry.
* `src/unnamed/part_000` — the Extraction Workflow: walks one or more
  catalogs and flattens non-empty (source, translation) pairs into a single
  JSON object.

JavaScript strings/arrays/objects are modelled explicitly: `JsStrings` is a
value that is either a string or an array of strings (the scripts guard with
`Array.isArray`), JS objects holding string values are association lists with
first-occurrence update semantics (`objInsert`, `objGet`), and the JS string
methods `split`, `join`, `trim`, `includes` are given structural-recursion
models (`jsSplitNl`, `jsJoin`, `jsTrim`, `jsIncludesNl`).  I/O (file reads,
console logging, HTTP) is abstracted: the provider response for each attempt
is a parameter, and timed waits are recorded as a list of delay durations.
-/

/-- A JavaScript value that is either a single string or an array of strings.
Both scripts defend with `Array.isArray(translation.msgid)` etc., so entry
fields may be either shape. -/
inductive JsStrings where
  | str : String → JsStrings
  | arr : List String → JsStrings
deriving DecidableEq, Repr

/-- Models JS `Array.prototype.join(sep)`: elements concatenated with `sep`
between consecutive elements; the empty array joins to `""`. -/
def jsJoin (sep : String) : List String → String
  | [] => ""
  | [s] => s
  | s :: rest => s ++ sep ++ jsJoin sep rest

/-- Models `Array.isArray(x) ? x.join('') : x` (src/index.js line 127). -/
def jsJoinEmpty : JsStrings → String
  | .str s => s
  | .arr l => jsJoin "" l

/-- Models `Array.isArray(x) ? x.join('\n') : x` (src/unnamed/part_000
lines 35-37 and 40-44). -/
def jsJoinNl : JsStrings → String
  | .str s => s
  | .arr l => jsJoin "\n" l

/-- Models JS `.length` on a string-or-array value. -/
def jsLength : JsStrings → Nat
  | .str s => s.length
  | .arr l => l.length

/-- Models JS `String.prototype.trim()`: strip whitespace from both ends. -/
def jsTrim (s : String) : String :=
  String.mk ((((s.data.dropWhile Char.isWhitespace).reverse).dropWhile
    Char.isWhitespace).reverse)

/-- Splits a character list at every occurrence of `c`; models the behaviour
of JS `String.prototype.split` with a one-character separator (the empty
string splits to `[""]`, a trailing separator yields a trailing `""`). -/
def jsSplitOnChar (c : Char) : List Char → List (List Char)
  | [] => [[]]
  | x :: rest =>
    let r := jsSplitOnChar c rest
    if x = c then
      [] :: r
    else
      match r with
      | [] => [[x]]
      | h :: t => (x :: h) :: t

/-- Models JS `s.split('\n')` (src/index.js line 134). -/
def jsSplitNl (s : String) : List String :=
  (jsSplitOnChar '\n' s.data).map String.mk

/-- Models JS `s.includes('\n')` (src/index.js line 133). -/
def jsIncludesNl (s : String) : Bool :=
  s.data.contains '\n'

/-- Models assignment `obj[k] = v` on a JS object with string values: if the
key is present its value is updated in place, otherwise the pair is appended
in insertion order. -/
def objInsert : List (String × String) → String → String → List (String × String)
  | [], k, v => [(k, v)]
  | p :: rest, k, v =>
    if p.1 = k then (p.1, v) :: rest else p :: objInsert rest k v

/-- Models property read `obj[k]` on a JS object with string values:
`none` when the key is absent. -/
def objGet : List (String × String) → String → Option String
  | [], _ => none
  | p :: rest, k => if p.1 = k then some p.2 else objGet rest k

/-- One parsed catalog entry as the Extraction Workflow sees it:
`translation.msgid` and `translation.msgstr` fields of the object produced by
the PO parser (`msgstr` may be absent). -/
structure ExtractEntry where
  msgid : JsStrings
  msgstr : Option JsStrings
deriving DecidableEq, Repr

/-- Models the computation of `chinese` in src/unnamed/part_000 lines 40-44:
`translation.msgstr && translation.msgstr.length > 0 ?
(Array.isArray(translation.msgstr) ? translation.msgstr.join('\n') :
translation.msgstr) : ''`. -/
def extractChinese : Option JsStrings → String
  | none => ""
  | some msgstr => if 0 < jsLength msgstr then jsJoinNl msgstr else ""

/-- Models one iteration of the entry loop of `extractTranslations`
(src/unnamed/part_000 lines 30-49): skip the empty `msgid` key, normalize
source and translation, and store the pair only when both are non-empty
(JS string truthiness). -/
def extractEntry (translations : List (String × String)) (msgid : String)
    (translation : ExtractEntry) : List (String × String) :=
  if msgid = "" then translations
  else
    let english := jsJoinNl translation.msgid
    let chinese := extractChinese translation.msgstr
    if english ≠ "" ∧ chinese ≠ "" then objInsert translations english chinese
    else translations

/-- A parsed catalog as iterated by both scripts: the list of translation
contexts (`Object.values(po.translations)`), each context a list of
`(msgid key, entry)` pairs in object-iteration order. -/
abbrev ExtractCatalog := List (List (String × ExtractEntry))

/-- Models `extractTranslations` (src/unnamed/part_000 lines 21-54): fold
every entry of every context into one mapping, starting from `{}`. -/
def extractTranslations (po : ExtractCatalog) : List (String × String) :=
  po.foldl
    (fun translations context =>
      context.foldl (fun m p => extractEntry m p.1 p.2) translations)
    []

/-- Models JS `Object.assign(target, source)`: every own property of
`source` is assigned onto `target` in order. -/
def objAssign (target source : List (String × String)) : List (String × String) :=
  source.foldl (fun m p => objInsert m p.1 p.2) target

/-- Models the merging loop of `processPoPath` (src/unnamed/part_000
lines 67-83): the catalogs parsed from the `.po` files of the input
directory, in processing order, each extracted and `Object.assign`ed onto
the accumulated mapping (file-system scanning and extension filtering are
abstracted into the list of already-parsed catalogs). -/
def processPoPath (catalogs : List ExtractCatalog) : List (String × String) :=
  catalogs.foldl
    (fun allTranslations po => objAssign allTranslations (extractTranslations po))
    []

/-- Retry limit of the fill tool, `RETRY_LIMIT` (src/index.js line 24). -/
def RETRY_LIMIT : Nat := 3

/-- Base retry delay in milliseconds, `RETRY_DELAY_BASE`
(src/index.js line 25). -/
def RETRY_DELAY_BASE : Nat := 1000

/-- Post-request delay in milliseconds, `REQUEST_DELAY`
(src/index.js line 26). -/
def REQUEST_DELAY : Nat := 1000

/-- Outcome of `JSON.parse` on the cache file's content: a string-to-string
object, or a parse error. -/
inductive JsonParseResult where
  | ok : List (String × String) → JsonParseResult
  | err : JsonParseResult
deriving DecidableEq, Repr

/-- Result of loading the cache at startup: the initial mapping and whether
the corrupt-cache warning was printed. -/
structure LoadOutcome where
  cache : List (String × String)
  warned : Bool
deriving DecidableEq, Repr

/-- Models the cache-loading block of src/index.js lines 34-44:
`cache = {}`; if the cache file exists, `JSON.parse` its content inside
`try`/`catch`, and on a parse error log a warning and keep `cache = {}`.
`fileExists` models `fs.existsSync(CACHE_FILE)` and `parsed` the outcome of
`JSON.parse` on the file's content; the function is total, so loading never
propagates an error. -/
def loadCache (fileExists : Bool) (parsed : JsonParseResult) : LoadOutcome :=
  if fileExists then
    match parsed with
    | .ok m => ⟨m, false⟩
    | .err => ⟨[], true⟩
  else ⟨[], false⟩

/-- Observable effects accumulated by one `translateText` call: how many
provider requests were issued (`axios.post`, src/index.js line 81), the
durations of the backoff sleeps between attempts (line 102-104), and the
cache after the call (lines 87-88). -/
structure RunState where
  calls : Nat
  delays : List Nat
  cache : List (String × String)
deriving DecidableEq, Repr

/-- Models the retry loop of `translateText` (src/index.js lines 69-106).
`resp attempt` abstracts the provider interaction of that attempt:
`some segs` is a response whose `data.trans_result` holds segments with
translated texts `segs`, `none` is a transport error or a response without
`trans_result` (both reach the `catch` block).  The per-attempt salt and the
MD5 signature (lines 71-72) do not influence control flow and are elided.
`fuel` counts the loop iterations still allowed (`retries - attempt + 1` at
entry); when the loop ends without returning, the JS function returns
`undefined`, modelled as `none`. -/
def translateAttempts (resp : Nat → Option (List String)) (text : String)
    (retries base : Nat) : Nat → Nat → RunState → Option String × RunState
  | _, 0, st => (none, st)
  | attempt, fuel + 1, st =>
    let st1 : RunState := { st with calls := st.calls + 1 }
    match resp attempt with
    | some segs =>
      let translatedText := jsTrim (jsJoin "\n" segs)
      (some translatedText, { st1 with cache := objInsert st1.cache text translatedText })
    | none =>
      if attempt = retries then
        (some text, st1)
      else
        translateAttempts resp text retries base (attempt + 1) fuel
          { st1 with delays := st1.delays ++ [base * 2 ^ (attempt - 1)] }

/-- Models `translateText(text, retries)` (src/index.js lines 63-107): if
`cache[text]` is truthy (present with a non-empty string value) return it
without touching the provider; otherwise run the retry loop from attempt 1.
The returned `RunState` carries the observable effects of the call. -/
def translateText (resp : Nat → Option (List String)) (cache : List (String × String))
    (text : String) (retries base : Nat) : Option String × RunState :=
  match objGet cache text with
  | some v =>
    if v = "" then translateAttempts resp text retries base 1 retries ⟨0, [], cache⟩
    else (some v, ⟨0, [], cache⟩)
  | none => translateAttempts resp text retries base 1 retries ⟨0, [], cache⟩

/-- One parsed catalog entry as the Fill Workflow sees it: the
`translation.msgid` field (string or array, line 127) and the
`translation.msgstr` field (an array of translated lines, absent when the
parser produced none, line 123). -/
structure FillEntry where
  msgid : JsStrings
  msgstr : Option (List String)
deriving DecidableEq, Repr

/-- Models the untranslated test of src/index.js line 123:
`!translation.msgstr || translation.msgstr.join('').trim() === ''`. -/
def needsTranslation : Option (List String) → Bool
  | none => true
  | some msgstr => jsTrim (jsJoin "" msgstr) == ""

/-- Models the write-back of src/index.js lines 132-138: when the flattened
source contains a newline, `translation.msgstr =
[translatedText.split('\n').map(line => line).join('\n')]`, otherwise
`translation.msgstr = [translatedText]`. -/
def fillMsgstr (originalText translatedText : String) : List String :=
  if jsIncludesNl originalText then
    [jsJoin "\n" ((jsSplitNl translatedText).map (fun line => line))]
  else
    [translatedText]

/-- Models one iteration of the entry loop of `main` (src/index.js
lines 118-144): skip the empty `msgid` key (line 120); when the entry is
untranslated, flatten the `msgid` field with no separator (line 127), call
`translateText` — abstracted by `tr` — on it and store the write-back.
Returns the (possibly mutated) entry together with the list of texts passed
to `translateText` during the iteration. -/
def fillEntry (tr : String → String) (msgid : String) (translation : FillEntry) :
    FillEntry × List String :=
  if msgid = "" then (translation, [])
  else if needsTranslation translation.msgstr then
    let originalText := jsJoinEmpty translation.msgid
    let translatedText := tr originalText
    ({ translation with msgstr := some (fillMsgstr originalText translatedText) },
      [originalText])
  else (translation, [])

/-- Every pair of the object has a non-empty key and a non-empty value. -/
def entriesNonEmpty (m : List (String × String)) : Prop :=
  ∀ p ∈ m, p.1 ≠ "" ∧ p.2 ≠ ""

/-- The keys of the object are pairwise distinct. -/
def keysNodup (m : List (String × String)) : Prop :=
  (m.map Prod.fst).Nodup

/-- The untranslated condition as the spec words it: the translated-lines
collection is missing, empty, or consists only of whitespace after joining
and trimming (compare `needsTranslation`, the code's test). -/
def needsTranslationSpec (msgstr : Option (List String)) : Prop :=
  msgstr = none ∨ msgstr = some [] ∨ jsTrim (jsJoin "" (msgstr.getD [])) = ""

/-- Folding preserves any invariant preserved by each step. -/
theorem foldl_invariant {α β : Type} (f : β → α → β) (P : β → Prop)
    (h : ∀ b a, P b → P (f b a)) : ∀ (l : List α) (b : β), P b → P (l.foldl f b)
  | [], _, hb => hb
  | a :: l, b, hb => foldl_invariant f P h l (f b a) (h b a hb)

/-- Reading back the key just assigned yields the assigned value. -/
theorem objGet_objInsert_self (m : List (String × String)) (k v : String) :
    objGet (objInsert m k v) k = some v := by
  induction m with
  | nil => simp [objInsert, objGet]
  | cons p rest ih =>
    by_cases hp : p.1 = k
    · simp [objInsert, objGet, hp]
    · simp [objInsert, objGet, hp, ih]

/-- Assigning one key leaves the values of the other keys unchanged. -/
theorem objGet_objInsert_ne (m : List (String × String)) (k v k' : String)
    (h : k' ≠ k) : objGet (objInsert m k v) k' = objGet m k' := by
  induction m with
  | nil =>
    simp only [objInsert, objGet]
    rw [if_neg fun hk => h hk.symm]
  | cons p rest ih =>
    by_cases hp : p.1 = k
    · subst hp
      simp only [objInsert, if_pos rfl, objGet]
      rw [if_neg fun hk => h hk.symm, if_neg fun hk => h hk.symm]
    · simp only [objInsert, if_neg hp, objGet, ih]

/-- A key of the object after an assignment is either an old key or the
assigned key. -/
theorem mem_keys_objInsert {m : List (String × String)} {k v x : String}
    (hx : x ∈ (objInsert m k v).map Prod.fst) :
    x ∈ m.map Prod.fst ∨ x = k := by
  induction m with
  | nil =>
    simp [objInsert] at hx
    right; exact hx
  | cons p rest ih =>
    by_cases hp : p.1 = k
    · simp only [objInsert, if_pos hp, List.map_cons, List.mem_cons] at hx ⊢
      exact .inl hx
    · simp only [objInsert, if_neg hp, List.map_cons, List.mem_cons] at hx ⊢
      rcases hx with hx | hx
      · exact .inl (.inl hx)
      · rcases ih hx with h | h
        · exact .inl (.inr h)
        · exact .inr h

/-- The keys of a JS object stay pairwise distinct across assignments. -/
theorem keysNodup_objInsert {m : List (String × String)} (k v : String)
    (hm : (m.map Prod.fst).Nodup) : ((objInsert m k v).map Prod.fst).Nodup := by
  induction m with
  | nil => simp [objInsert]
  | cons p rest ih =>
    rw [List.map_cons, List.nodup_cons] at hm
    by_cases hp : p.1 = k
    · simpa [objInsert, hp, List.nodup_cons] using hm
    · rw [objInsert, if_neg hp, List.map_cons, List.nodup_cons]
      refine ⟨fun hmem => ?_, ih hm.2⟩
      rcases mem_keys_objInsert hmem with h | h
      · exact hm.1 h
      · exact hp h

/-- Assigning a non-empty value under a non-empty key preserves
`entriesNonEmpty`. -/
theorem entriesNonEmpty_objInsert {m : List (String × String)} {k v : String}
    (hm : entriesNonEmpty m) (hk : k ≠ "") (hv : v ≠ "") :
    entriesNonEmpty (objInsert m k v) := by
  induction m with
  | nil =>
    intro p hp
    simp [objInsert] at hp
    subst hp; exact ⟨hk, hv⟩
  | cons q rest ih =>
    have hq := hm q (List.mem_cons_self q rest)
    have hrest : entriesNonEmpty rest := fun p hp => hm p (List.mem_cons_of_mem q hp)
    by_cases hqk : q.1 = k
    · intro p hp
      rw [objInsert, if_pos hqk] at hp
      rcases List.mem_cons.mp hp with rfl | hp
      · exact ⟨hq.1, hv⟩
      · exact hrest p hp
    · intro p hp
      rw [objInsert, if_neg hqk] at hp
      rcases List.mem_cons.mp hp with rfl | hp
      · exact hq
      · exact ih hrest p hp

/-- One extraction step preserves `entriesNonEmpty`. -/
theorem entriesNonEmpty_extractEntry {m : List (String × String)}
    (msgid : String) (e : ExtractEntry) (hm : entriesNonEmpty m) :
    entriesNonEmpty (extractEntry m msgid e) := by
  unfold extractEntry
  by_cases h0 : msgid = ""
  · simpa [h0] using hm
  · rw [if_neg h0]
    by_cases hg : jsJoinNl e.msgid ≠ "" ∧ extractChinese e.msgstr ≠ ""
    · rw [if_pos hg]
      exact entriesNonEmpty_objInsert hm hg.1 hg.2
    · rw [if_neg hg]
      exact hm

/-- One extraction step preserves key distinctness. -/
theorem keysNodup_extractEntry {m : List (String × String)}
    (msgid : String) (e : ExtractEntry) (hm : keysNodup m) :
    keysNodup (extractEntry m msgid e) := by
  unfold keysNodup at hm ⊢
  unfold extractEntry
  by_cases h0 : msgid = ""
  · simpa [h0] using hm
  · rw [if_neg h0]
    by_cases hg : jsJoinNl e.msgid ≠ "" ∧ extractChinese e.msgstr ≠ ""
    · rw [if_pos hg]
      exact keysNodup_objInsert _ _ hm
    · rw [if_neg hg]
      exact hm

/-- Every pair the Extraction Workflow emits has a non-empty source and a
non-empty translation. -/
theorem entriesNonEmpty_extractTranslations (po : ExtractCatalog) :
    entriesNonEmpty (extractTranslations po) := by
  unfold extractTranslations
  refine foldl_invariant _ entriesNonEmpty ?_ po [] ?_
  · intro b context hb
    refine foldl_invariant _ entriesNonEmpty ?_ context b hb
    intro m p hm
    exact entriesNonEmpty_extractEntry p.1 p.2 hm
  · intro p hp
    cases hp

/-- The Extraction output mapping has pairwise-distinct keys. -/
theorem keysNodup_extractTranslations (po : ExtractCatalog) :
    keysNodup (extractTranslations po) := by
  unfold extractTranslations
  refine foldl_invariant _ keysNodup ?_ po [] ?_
  · intro b context hb
    refine foldl_invariant _ keysNodup ?_ context b hb
    intro m p hm
    exact keysNodup_extractEntry p.1 p.2 hm
  · simp [keysNodup]

/-- A key absent from every pair of the object reads back as `none`. -/
theorem objGet_eq_none_of_not_key {m : List (String × String)} {k : String}
    (h : ∀ p ∈ m, p.1 ≠ k) : objGet m k = none := by
  induction m with
  | nil => rfl
  | cons p rest ih =>
    rw [objGet, if_neg (h p (List.mem_cons_self p rest))]
    exact ih fun q hq => h q (List.mem_cons_of_mem p hq)

/-- `Object.assign` with a source none of whose keys is `k` leaves the value
at `k` unchanged. -/
theorem objGet_objAssign_not_mem (m2 : List (String × String)) :
    ∀ (m1 : List (String × String)) (k : String), (∀ p ∈ m2, p.1 ≠ k) →
    objGet (objAssign m1 m2) k = objGet m1 k := by
  induction m2 with
  | nil => intro m1 k _; rfl
  | cons q rest ih =>
    intro m1 k hk
    show objGet (objAssign (objInsert m1 q.1 q.2) rest) k = objGet m1 k
    rw [ih (objInsert m1 q.1 q.2) k fun p hp => hk p (List.mem_cons_of_mem q hp)]
    exact objGet_objInsert_ne m1 q.1 q.2 k
      fun h => hk q (List.mem_cons_self q rest) h.symm

/-- When the source object has pairwise-distinct keys, reading a key present
in the source after `Object.assign` yields the source's value. -/
theorem objGet_objAssign_of_get (m2 : List (String × String)) :
    ∀ (m1 : List (String × String)) (k v : String), keysNodup m2 →
    objGet m2 k = some v → objGet (objAssign m1 m2) k = some v := by
  induction m2 with
  | nil => intro _ _ _ _ h; cases h
  | cons q rest ih =>
    intro m1 k v hnd hget
    rw [keysNodup, List.map_cons, List.nodup_cons] at hnd
    show objGet (objAssign (objInsert m1 q.1 q.2) rest) k = some v
    by_cases hq : q.1 = k
    · rw [objGet, if_pos hq] at hget
      subst hq
      rw [objGet_objAssign_not_mem rest (objInsert m1 q.1 q.2) q.1
        fun p hp h => hnd.1 (h ▸ List.mem_map_of_mem Prod.fst hp)]
      rw [objGet_objInsert_self]
      exact hget
    · rw [objGet, if_neg hq] at hget
      exact ih (objInsert m1 q.1 q.2) k v hnd.2 hget

/-- When every provider attempt fails, the retry loop returns the original
text, performs one request per remaining attempt, and sleeps
`base * 2 ^ (attempt - 1)` between consecutive attempts. -/
theorem translateAttempts_allFail (resp : Nat → Option (List String)) (text : String)
    (retries base : Nat) (hfail : ∀ n, resp n = none) :
    ∀ (fuel attempt : Nat) (st : RunState), 1 ≤ attempt →
      attempt + fuel = retries + 1 → 1 ≤ fuel →
      translateAttempts resp text retries base attempt fuel st =
        (some text,
          ⟨st.calls + fuel,
            st.delays ++ (List.range (fuel - 1)).map (fun i => base * 2 ^ (attempt - 1 + i)),
            st.cache⟩) := by
  intro fuel
  induction fuel with
  | zero => intro attempt st _ _ h; exact absurd h (by omega)
  | succ f ih =>
    intro attempt st ha hsum _
    rw [translateAttempts, hfail attempt]
    by_cases hend : attempt = retries
    · have hf0 : f = 0 := by omega
      subst hf0
      simp [hend]
    · have hf : 1 ≤ f := by omega
      simp only [if_neg hend]
      rw [ih (attempt + 1) _ (by omega) (by omega) hf]
      obtain ⟨g, rfl⟩ : ∃ g, f = g + 1 := ⟨f - 1, by omega⟩
      simp only [Prod.mk.injEq, RunState.mk.injEq]
      refine ⟨trivial, by omega, ?_, trivial⟩
      rw [List.append_assoc]
      congr 1
      simp only [Nat.add_sub_cancel]
      rw [List.range_succ_eq_map, List.map_cons, List.map_map,
        List.singleton_append]
      congr 1
      simp
      intro a _
      left
      omega

/-- The retry loop never decreases the request counter. -/
theorem translateAttempts_calls_mono (resp : Nat → Option (List String))
    (text : String) (retries base : Nat) :
    ∀ (fuel attempt : Nat) (st : RunState),
      st.calls ≤ (translateAttempts resp text retries base attempt fuel st).2.calls := by
  intro fuel
  induction fuel with
  | zero => intro attempt st; exact Nat.le_refl _
  | succ f ih =>
    intro attempt st
    rw [translateAttempts]
    cases hr : resp attempt with
    | some segs => simp
    | none =>
      by_cases hend : attempt = retries
      · simp [hend]
      · simp only [if_neg hend]
        exact Nat.le_trans (by simp) (ih (attempt + 1) _)

/-- With at least one attempt allowed, the retry loop issues at least one
provider request. -/
theorem translateAttempts_calls_pos (resp : Nat → Option (List String))
    (text : String) (retries base fuel attempt : Nat) (st : RunState)
    (hf : 1 ≤ fuel) :
    st.calls + 1 ≤ (translateAttempts resp text retries base attempt fuel st).2.calls := by
  obtain ⟨f, rfl⟩ : ∃ f, fuel = f + 1 := ⟨fuel - 1, by omega⟩
  rw [translateAttempts]
  cases hr : resp attempt with
  | some segs => simp
  | none =>
    by_cases hend : attempt = retries
    · simp [hend]
    · simp only [if_neg hend]
      exact Nat.le_trans (by simp)
        (translateAttempts_calls_mono resp text retries base f (attempt + 1) _)


/-- C7: loading the cache from a file whose content fails to parse as JSON
yields an empty mapping together with the logged warning, while a successful
parse yields the parsed mapping; `loadCache` is total, so a corrupt cache
file is never fatal. -/
theorem loadCache_corrupt_recovers :
    loadCache true JsonParseResult.err = ⟨[], true⟩ ∧
    ∀ m, loadCache true (JsonParseResult.ok m) = ⟨m, false⟩ :=
  ⟨rfl, fun _ => rfl⟩

/-- C2 counterexample: the text `"T"` is present as a key in the cache (with
the empty string as its value), yet `translateText` issues provider requests
and does not return the cached value, because line 64 of src/index.js tests
the truthiness of `cache[text]`, not key membership. -/
theorem translate_cacheHit_cex :
    objGet [("T", "")] "T" = some "" ∧
    (translateText (fun _ => none) [("T", "")] "T" RETRY_LIMIT
        RETRY_DELAY_BASE).2.calls = 3 ∧
    (translateText (fun _ => none) [("T", "")] "T" RETRY_LIMIT
        RETRY_DELAY_BASE).1 ≠ some "" := by
  decide

/-- C2 (amended): for every text `T` present in the cache with a non-empty
(truthy) value, `translateText T` performs no network call and returns the
cached value. -/
theorem translateText_cacheHit (resp : Nat → Option (List String))
    (cache : List (String × String)) (text v : String) (retries base : Nat)
    (h : objGet cache text = some v) (hv : v ≠ "") :
    translateText resp cache text retries base = (some v, ⟨0, [], cache⟩) := by
  unfold translateText
  rw [h]
  simp [hv]

/-- C2 witness: a concrete cache hit with a non-empty value. -/
theorem translateText_cacheHit_witness :
    objGet [("Hello", "Hi")] "Hello" = some "Hi" ∧ "Hi" ≠ "" ∧
    translateText (fun _ => none) [("Hello", "Hi")] "Hello" RETRY_LIMIT
        RETRY_DELAY_BASE = (some "Hi", ⟨0, [], [("Hello", "Hi")]⟩) :=
  ⟨by decide, by decide,
    translateText_cacheHit (fun _ => none) [("Hello", "Hi")] "Hello" "Hi"
      RETRY_LIMIT RETRY_DELAY_BASE (by decide) (by decide)⟩

/-- C10: when the cache maps `text` to the empty string (key present, value
falsy), `translateText` does not take the cache-hit path: it runs the retry
loop exactly as on a cache miss and issues at least one provider request. -/
theorem translateText_falsyCache_contacts_provider
    (resp : Nat → Option (List String)) (cache : List (String × String))
    (text : String) (retries base : Nat)
    (h : objGet cache text = some "") (hr : 1 ≤ retries) :
    translateText resp cache text retries base =
      translateAttempts resp text retries base 1 retries ⟨0, [], cache⟩ ∧
    1 ≤ (translateText resp cache text retries base).2.calls := by
  have heq : translateText resp cache text retries base =
      translateAttempts resp text retries base 1 retries ⟨0, [], cache⟩ := by
    unfold translateText
    rw [h]
    simp
  refine ⟨heq, ?_⟩
  rw [heq]
  simpa using
    translateAttempts_calls_pos resp text retries base retries 1 ⟨0, [], cache⟩ hr

/-- C10 witness: a concrete cache with an empty-string value for the queried
text, and a provider that answers on the first attempt. -/
theorem translateText_falsyCache_witness :
    objGet [("T", "")] "T" = some "" ∧ 1 ≤ RETRY_LIMIT ∧
    (translateText (fun _ => some ["B"]) [("T", "")] "T" RETRY_LIMIT
        RETRY_DELAY_BASE =
      translateAttempts (fun _ => some ["B"]) "T" RETRY_LIMIT RETRY_DELAY_BASE
        1 RETRY_LIMIT ⟨0, [], [("T", "")]⟩ ∧
    1 ≤ (translateText (fun _ => some ["B"]) [("T", "")] "T" RETRY_LIMIT
        RETRY_DELAY_BASE).2.calls) :=
  ⟨by decide, by decide,
    translateText_falsyCache_contacts_provider (fun _ => some ["B"])
      [("T", "")] "T" RETRY_LIMIT RETRY_DELAY_BASE (by decide) (by decide)⟩

/-- C3: for a text not in the cache, when every provider attempt fails,
`translateText` returns the text unchanged (it never raises past the retry
limit), issues exactly `retries` requests, and the wait before retry attempt
`k + 1` is `base * 2 ^ (k - 1)` (the `k`-th recorded delay, `k` counted from
1, is entry `k - 1` of the list below). -/
theorem translateText_allFail_degrades (resp : Nat → Option (List String))
    (cache : List (String × String)) (text : String) (retries base : Nat)
    (hmiss : objGet cache text = none) (hfail : ∀ n, resp n = none)
    (hr : 1 ≤ retries) :
    translateText resp cache text retries base =
      (some text,
        ⟨retries, (List.range (retries - 1)).map (fun i => base * 2 ^ i),
          cache⟩) := by
  unfold translateText
  rw [hmiss]
  rw [translateAttempts_allFail resp text retries base hfail retries 1
    ⟨0, [], cache⟩ (Nat.le_refl 1) (by omega) hr]
  simp

/-- C3 witness: with the configured constants (limit 3, base 1000 ms) and a
provider that always fails, the call returns the original text after 3
requests with backoff delays 1000 ms and 2000 ms. -/
theorem translateText_allFail_witness :
    objGet [] "Hello" = none ∧ 1 ≤ RETRY_LIMIT ∧
    translateText (fun _ => none) [] "Hello" RETRY_LIMIT RETRY_DELAY_BASE =
      (some "Hello", ⟨3, [1000, 2000], []⟩) := by
  refine ⟨rfl, by decide, ?_⟩
  rw [translateText_allFail_degrades (fun _ => none) [] "Hello" RETRY_LIMIT
    RETRY_DELAY_BASE rfl (fun _ => rfl) (by decide)]
  decide

/-- C4 counterexample: a catalog with two entries whose sources normalize to
the same string `"A"`, with translations `"X"` then `"Y"`.  Both the
source and translation of the first entry are non-empty, yet the pair
`("A", "X")` is not in the output mapping: the second entry overwrote it, so
"contains a pair (source, translation) if and only if both are non-empty"
fails in the "if" direction. -/
theorem extract_iff_cex :
    extractTranslations
        [[("a", ⟨JsStrings.str "A", some (JsStrings.str "X")⟩)],
          [("b", ⟨JsStrings.str "A", some (JsStrings.str "Y")⟩)]] =
      [("A", "Y")] ∧
    jsJoinNl (JsStrings.str "A") ≠ "" ∧
    extractChinese (some (JsStrings.str "X")) ≠ "" ∧
    ("A", "X") ∉ extractTranslations
        [[("a", ⟨JsStrings.str "A", some (JsStrings.str "X")⟩)],
          [("b", ⟨JsStrings.str "A", some (JsStrings.str "Y")⟩)]] := by
  decide

/-- C4 (amended): for every parsed catalog, the Extraction Workflow's output
mapping contains a pair (source, translation) only if both components are
non-empty strings; in particular an entry with an empty translated value is
never present in the output. -/
theorem extract_pairs_nonEmpty (po : ExtractCatalog) (p : String × String)
    (hp : p ∈ extractTranslations po) : p.1 ≠ "" ∧ p.2 ≠ "" :=
  entriesNonEmpty_extractTranslations po p hp

/-- C4 witness: a concrete catalog whose single emitted pair is non-empty on
both sides. -/
theorem extract_pairs_nonEmpty_witness :
    ("Hello", "Hi") ∈ extractTranslations
        [[("Hello", ⟨JsStrings.str "Hello", some (JsStrings.str "Hi")⟩)]] ∧
    ("Hello", "Hi").1 ≠ "" ∧ ("Hello", "Hi").2 ≠ "" :=
  ⟨by decide,
    (extract_pairs_nonEmpty
      [[("Hello", ⟨JsStrings.str "Hello", some (JsStrings.str "Hi")⟩)]]
      ("Hello", "Hi") (by decide)).1,
    (extract_pairs_nonEmpty
      [[("Hello", ⟨JsStrings.str "Hello", some (JsStrings.str "Hi")⟩)]]
      ("Hello", "Hi") (by decide)).2⟩

/-- C5: when two catalogs both emit a translation for the same source text,
the merged mapping of the directory run holds the translation of the
later-processed catalog. -/
theorem processPoPath_lastWins (c1 c2 : ExtractCatalog) (s v1 v2 : String)
    (_h1 : objGet (extractTranslations c1) s = some v1)
    (h2 : objGet (extractTranslations c2) s = some v2) :
    objGet (processPoPath [c1, c2]) s = some v2 := by
  show objGet
    (objAssign (objAssign [] (extractTranslations c1)) (extractTranslations c2))
    s = some v2
  exact objGet_objAssign_of_get _ _ s v2 (keysNodup_extractTranslations c2) h2

/-- C5 witness: two concrete one-entry catalogs sharing the source
`"Hello"`; the merge keeps the second catalog's translation. -/
theorem processPoPath_lastWins_witness :
    objGet (extractTranslations
        [[("Hello", ⟨JsStrings.str "Hello", some (JsStrings.str "A")⟩)]])
      "Hello" = some "A" ∧
    objGet (extractTranslations
        [[("Hello", ⟨JsStrings.str "Hello", some (JsStrings.str "B")⟩)]])
      "Hello" = some "B" ∧
    objGet (processPoPath
        [[[("Hello", ⟨JsStrings.str "Hello", some (JsStrings.str "A")⟩)]],
          [[("Hello", ⟨JsStrings.str "Hello", some (JsStrings.str "B")⟩)]]])
      "Hello" = some "B" :=
  ⟨by decide, by decide,
    processPoPath_lastWins
      [[("Hello", ⟨JsStrings.str "Hello", some (JsStrings.str "A")⟩)]]
      [[("Hello", ⟨JsStrings.str "Hello", some (JsStrings.str "B")⟩)]]
      "Hello" "A" "B" (by decide) (by decide)⟩

/-- C6: the reserved header entry with the empty source identifier is skipped
by both workflows: the empty string is never a key of the Extraction output
mapping, and the Fill Workflow's entry loop returns a header entry unchanged
without invoking any translation. -/
theorem header_entry_skipped :
    (∀ po : ExtractCatalog, objGet (extractTranslations po) "" = none) ∧
    ∀ (tr : String → String) (e : FillEntry), fillEntry tr "" e = (e, []) := by
  constructor
  · intro po
    exact objGet_eq_none_of_not_key fun p hp =>
      (entriesNonEmpty_extractTranslations po p hp).1
  · intro tr e
    rfl

/-- The code's untranslated test (src/index.js line 123) holds exactly when
the spec's wording does: the translated-lines collection is missing, empty,
or blank after joining and trimming. -/
theorem needsTranslation_eq_spec (msgstr : Option (List String)) :
    needsTranslation msgstr = true ↔ needsTranslationSpec msgstr := by
  cases msgstr with
  | none => simp [needsTranslation, needsTranslationSpec]
  | some xs =>
    simp only [needsTranslation, needsTranslationSpec, beq_iff_eq,
      Option.getD_some, reduceCtorEq, Option.some.injEq, false_or]
    constructor
    · intro h
      right
      exact h
    · rintro (rfl | h)
      · rfl
      · exact h

/-- C8: for a non-header entry, the Fill Workflow invokes translation exactly
when the entry's translated-lines collection is missing, empty, or blank
after joining and trimming; otherwise the entry is left unchanged. -/
theorem fillEntry_translates_iff (tr : String → String) (msgid : String)
    (e : FillEntry) (h : msgid ≠ "") :
    ((fillEntry tr msgid e).2 ≠ [] ↔ needsTranslationSpec e.msgstr) ∧
    (¬ needsTranslationSpec e.msgstr → fillEntry tr msgid e = (e, [])) := by
  by_cases hn : needsTranslation e.msgstr = true
  · have hs := (needsTranslation_eq_spec e.msgstr).mp hn
    refine ⟨?_, fun hns => absurd hs hns⟩
    simp [fillEntry, if_neg h, hn, hs]
  · have hs : ¬ needsTranslationSpec e.msgstr := fun hsp =>
      hn ((needsTranslation_eq_spec e.msgstr).mpr hsp)
    have hfill : fillEntry tr msgid e = (e, []) := by
      simp [fillEntry, if_neg h, hn]
    refine ⟨?_, fun _ => hfill⟩
    rw [hfill]
    simp [hs]

/-- C8 witness: a concrete non-header entry with no `msgstr`, which is
translated, and the classification matches the spec's predicate. -/
theorem fillEntry_translates_iff_witness :
    "greet" ≠ "" ∧
    (((fillEntry (fun s => s) "greet" ⟨JsStrings.str "Hello", none⟩).2 ≠ []) ↔
      needsTranslationSpec (none : Option (List String))) ∧
    (¬ needsTranslationSpec (none : Option (List String)) →
      fillEntry (fun s => s) "greet" ⟨JsStrings.str "Hello", none⟩ =
        (⟨JsStrings.str "Hello", none⟩, [])) :=
  ⟨by decide,
    fillEntry_translates_iff (fun s => s) "greet"
      ⟨JsStrings.str "Hello", none⟩ (by decide)⟩

/-- C1 counterexample: source `"A\nB"` (containing an embedded newline)
translated to `"X\nY"` is written back as the single msgstr element
`"X\nY"`, not as the two elements `"X"` and `"Y"`: the split/rejoin on
src/index.js line 134 is the identity, so both branches store a one-element
array. -/
theorem fill_multiline_single_element_cex :
    (fillEntry (fun _ => "X\nY") "A\nB"
        ⟨JsStrings.str "A\nB", none⟩).1.msgstr = some ["X\nY"] ∧
    (some ["X\nY"] : Option (List String)) ≠ some ["X", "Y"] := by
  decide

/-- C1 (amended): for every entry the Fill Workflow translates, the result is
written back as a single msgstr element; when the source contains an
embedded newline the translated text's newlines are preserved inside that
one element (e.g. source `"A\nB"` translated to `"X\nY"` yields msgstr
`["X\nY"]`), never one element per translated line. -/
theorem fillEntry_writes_single_msgstr (tr : String → String) (msgid : String)
    (e : FillEntry) (h : msgid ≠ "") (hn : needsTranslation e.msgstr = true) :
    (∃ t : String, (fillEntry tr msgid e).1.msgstr = some [t]) ∧
    (fillEntry (fun _ => "X\nY") "A\nB"
        ⟨JsStrings.str "A\nB", none⟩).1.msgstr = some ["X\nY"] := by
  refine ⟨?_, by decide⟩
  simp only [fillEntry, if_neg h, hn, if_true, fillMsgstr]
  by_cases hc : jsIncludesNl (jsJoinEmpty e.msgid) = true
  · rw [if_pos hc]
    exact ⟨_, rfl⟩
  · rw [if_neg hc]
    exact ⟨_, rfl⟩

/-- C1 witness: the multi-line example entry, written back as one element. -/
theorem fillEntry_writes_single_msgstr_witness :
    "A\nB" ≠ "" ∧
    needsTranslation (⟨JsStrings.str "A\nB", none⟩ : FillEntry).msgstr = true ∧
    ((∃ t : String,
      (fillEntry (fun _ => "X\nY") "A\nB"
        ⟨JsStrings.str "A\nB", none⟩).1.msgstr = some [t]) ∧
    (fillEntry (fun _ => "X\nY") "A\nB"
        ⟨JsStrings.str "A\nB", none⟩).1.msgstr = some ["X\nY"]) :=
  ⟨by decide, by decide,
    fillEntry_writes_single_msgstr (fun _ => "X\nY") "A\nB"
      ⟨JsStrings.str "A\nB", none⟩ (by decide) (by decide)⟩

/-- C9: for an entry whose source identifier is the multi-line array `l`,
the Fill Workflow passes `l` joined with no separator to `translateText`
(hence that string is what is signed and cached), while the Extraction
Workflow emits the same entry under `l` joined with a newline; whenever the
two joinings differ, the two workflows key the same entry differently. -/
theorem fill_extract_key_mismatch (tr : String → String) (k1 : String)
    (e1 : FillEntry) (m : List (String × String)) (k2 : String)
    (e2 : ExtractEntry) (l : List String)
    (hk1 : k1 ≠ "") (hn : needsTranslation e1.msgstr = true)
    (h1 : e1.msgid = JsStrings.arr l) (hk2 : k2 ≠ "")
    (h2 : e2.msgid = JsStrings.arr l)
    (hs : jsJoin "\n" l ≠ "") (ht : extractChinese e2.msgstr ≠ "")
    (hdiff : jsJoin "" l ≠ jsJoin "\n" l) :
    (fillEntry tr k1 e1).2 = [jsJoin "" l] ∧
    objGet (extractEntry m k2 e2) (jsJoin "\n" l) =
      some (extractChinese e2.msgstr) ∧
    jsJoin "" l ≠ jsJoin "\n" l := by
  refine ⟨?_, ?_, hdiff⟩
  · simp [fillEntry, if_neg hk1, hn, jsJoinEmpty, h1]
  · have he : jsJoinNl e2.msgid = jsJoin "\n" l := by rw [h2]; rfl
    simp only [extractEntry, if_neg hk2, he]
    rw [if_pos ⟨hs, ht⟩]
    exact objGet_objInsert_self m _ _

/-- C9 witness: the entry with source lines `["A", "B"]`: the Fill Workflow
uses the key `"AB"`, the Extraction Workflow the key `"A\nB"`. -/
theorem fill_extract_key_mismatch_witness :
    "k" ≠ "" ∧
    needsTranslation (⟨JsStrings.arr ["A", "B"], none⟩ : FillEntry).msgstr
      = true ∧
    jsJoin "\n" ["A", "B"] ≠ "" ∧
    extractChinese (some (JsStrings.str "X")) ≠ "" ∧
    jsJoin "" ["A", "B"] ≠ jsJoin "\n" ["A", "B"] ∧
    ((fillEntry (fun s => s) "k" ⟨JsStrings.arr ["A", "B"], none⟩).2 =
        [jsJoin "" ["A", "B"]] ∧
      objGet
          (extractEntry [] "k"
            ⟨JsStrings.arr ["A", "B"], some (JsStrings.str "X")⟩)
          (jsJoin "\n" ["A", "B"]) =
        some (extractChinese (some (JsStrings.str "X"))) ∧
      jsJoin "" ["A", "B"] ≠ jsJoin "\n" ["A", "B"]) :=
  ⟨by decide, by decide, by decide, by decide, by decide,
    fill_extract_key_mismatch (fun s => s) "k"
      ⟨JsStrings.arr ["A", "B"], none⟩ [] "k"
      ⟨JsStrings.arr ["A", "B"], some (JsStrings.str "X")⟩ ["A", "B"]
      (by decide) (by decide) rfl (by decide) rfl (by decide) (by decide)
      (by decide)⟩
